import Mathlib

/-!
Verification of the eBIOS core against its specification.

This file gives a shallow embedding of the eBIOS core components
(nucore operations, the nuledger Merkle tree and ledger, the nuguard
rules and monitor, and the nupolicy validator) and proves or refutes
the specification claims about them.

Modelling conventions:
- IEEE-754 doubles are modelled by the type FP below: NaN, the two
  infinities, and finite values carried as rationals.  Rounding of
  finite arithmetic is not modelled; no claim below depends on it.
- Where an operation's output involves a square root, the values are
  modelled over the real numbers.
- SHA-256 is modelled as an abstract hash-combining function; its
  collision resistance, where a claim needs it, appears as an explicit
  injectivity hypothesis.
- uuid generation and Ed25519 signing are modelled as explicit
  parameters (a fresh identifier argument, an abstract signing
  function): the claims below do not depend on their values.
-/

namespace EBios

/-- Model of an IEEE-754 double: NaN, the infinities, or a finite value
(carried as a rational; rounding is not modelled). -/
inductive FP where
  | nan
  | inf
  | neginf
  | fin (q : ℚ)
deriving DecidableEq, Repr

namespace FP

/-- Python math.isnan. -/
def isNaN : FP → Bool
  | nan => true
  | _ => false

/-- Python math.isinf (true for both infinities). -/
def isInf : FP → Bool
  | inf => true
  | neginf => true
  | _ => false

/-- IEEE comparison x < y (false whenever either side is NaN). -/
def lt : FP → FP → Bool
  | nan, _ => false
  | _, nan => false
  | neginf, neginf => false
  | neginf, _ => true
  | _, neginf => false
  | inf, _ => false
  | _, inf => true
  | fin a, fin b => decide (a < b)

/-- Python x == 0 on floats (NaN and infinities compare unequal to 0). -/
def eqZero : FP → Bool
  | fin q => decide (q = 0)
  | _ => false

/-- Python abs on floats. -/
def fabs : FP → FP
  | nan => nan
  | inf => inf
  | neginf => inf
  | fin q => fin |q|

/-- IEEE division, for the cases reached by the coverage computation
(the divisor is never a finite zero there; on finite zero divisors
Python raises, which is outside the modelled domain). -/
def div : FP → FP → FP
  | nan, _ => nan
  | _, nan => nan
  | inf, inf => nan
  | inf, neginf => nan
  | neginf, inf => nan
  | neginf, neginf => nan
  | inf, fin q => if q < 0 then neginf else inf
  | neginf, fin q => if q < 0 then inf else neginf
  | fin _, inf => fin 0
  | fin _, neginf => fin 0
  | fin a, fin b => fin (a / b)

end FP

/-!
## nucore.operations

Source: src/src/nucore/operations.py.  The operation `catch` is named
`catchOp` here because `catch` is reserved syntax in Lean.
-/

/-- Embedding of nucore.operations.catch: returns the input pair unless
n is NaN, u is NaN, n is infinite, or u < 0; in those cases returns the
default pair.  (The source checks isinf only on n, not on u.) -/
def catchOp (n u default_n default_u : FP) : FP × FP :=
  if n.isNaN || u.isNaN || n.isInf || u.lt (.fin 0) then
    (default_n, default_u)
  else
    (n, u)

/-- Embedding of nucore.operations.compose over the reals (the zero
tests and the quadratic formulas follow the source; the asserts of the
source become hypotheses of the theorems below). -/
noncomputable def compose (n1 u1 n2 u2 : ℝ) : ℝ × ℝ :=
  if u1 = 0 ∧ u2 = 0 then
    ((n1 + n2) / 2, 0)
  else if u1 = 0 then
    (n1, 0)
  else if u2 = 0 then
    (n2, 0)
  else
    ((n1 * u2 ^ 2 + n2 * u1 ^ 2) / (u1 ^ 2 + u2 ^ 2),
      Real.sqrt ((u1 ^ 2 * u2 ^ 2) / (u1 ^ 2 + u2 ^ 2)))

/-- The validity condition of catch as the (amended) specification words
it: the nominal is finite, and the uncertainty is not NaN and not
negative (positive infinity is allowed through). -/
def catchSpecValid (n u : FP) : Bool :=
  (match n with
    | .fin _ => true
    | _ => false)
  &&
  (match u with
    | .inf => true
    | .fin q => decide (0 ≤ q)
    | _ => false)

/-!
## nuledger.merkle

Source: src/src/nuledger/merkle.py.  Hashes are modelled by an
arbitrary type alpha; SHA-256 of the concatenation of two hex digests
becomes an abstract combining function comb.  (All combined strings in
the source are fixed-width hex digests, so concatenation of two
digests is pairwise injective exactly when comb is.)
-/

/-- Sibling direction in a Merkle proof path (the source uses the
strings "left" and "right"). -/
inductive Dir where
  | left
  | right
deriving DecidableEq, Repr

/-- One combining level of MerkleTree.root: pairwise combination,
duplicating the last element of a level of odd length. -/
def nextLevel (comb : α → α → α) : List α → List α
  | [] => []
  | [a] => [comb a a]
  | a :: b :: rest => comb a b :: nextLevel comb rest

theorem nextLevel_length (comb : α → α → α) :
    ∀ l : List α, (nextLevel comb l).length = (l.length + 1) / 2
  | [] => by simp [nextLevel]
  | [_] => by simp [nextLevel]
  | _ :: _ :: rest => by
      simp [nextLevel, nextLevel_length comb rest]
      omega

/-- MerkleTree.root: the level-by-level bottom-up computation of the
source; e0 is the hash of the empty string (the root of an empty
tree), a single leaf is its own root. -/
def rootFrom (comb : α → α → α) (e0 : α) : List α → α
  | [] => e0
  | [a] => a
  | a :: b :: rest => rootFrom comb e0 (nextLevel comb (a :: b :: rest))
termination_by l => l.length
decreasing_by
  simp [nextLevel, nextLevel_length]
  omega

/-- Embedding of MerkleProof: leaf hash, sibling path, embedded root. -/
structure MProof (α : Type) where
  leaf : α
  path : List (α × Dir)
  root : α

/-- One step of MerkleProof.verify: a sibling marked left is combined
on the left of the running hash, a sibling marked right on the right. -/
def opStep (comb : α → α → α) (cur : α) (sd : α × Dir) : α :=
  match sd.2 with
  | .left => comb sd.1 cur
  | .right => comb cur sd.1

/-- The fold of MerkleProof.verify along the sibling path. -/
def foldPath (comb : α → α → α) (leaf : α) (path : List (α × Dir)) : α :=
  path.foldl (opStep comb) leaf

/-- MerkleProof.verify: recompute the root along the path and compare
with the embedded root. -/
def MProof.verify [DecidableEq α] (p : MProof α) (comb : α → α → α) : Bool :=
  decide (foldPath comb p.leaf p.path = p.root)

/-- The sibling recorded by MerkleTree.generate_proof for the leaf at
the given index of one level: the right neighbour for an even index
(the node itself when it is an odd tail), the left neighbour for an
odd index.  Returns none only for an out-of-range index (where the
source raises IndexError). -/
def sibAt : List α → ℕ → Option (α × Dir)
  | [], _ => none
  | [a], 0 => some (a, .right)
  | [_], _ + 1 => none
  | _ :: b :: _, 0 => some (b, .right)
  | a :: _ :: _, 1 => some (a, .left)
  | _ :: _ :: rest, n + 2 => sibAt rest n

/-- The sibling path collected by MerkleTree.generate_proof: one
sibling per level while the level has at least two nodes, then
recurse on the combined level with the halved index. -/
def proofPath (comb : α → α → α) : List α → ℕ → List (α × Dir)
  | [], _ => []
  | [_], _ => []
  | a :: b :: rest, idx =>
    match sibAt (a :: b :: rest) idx with
    | some sd => sd :: proofPath comb (nextLevel comb (a :: b :: rest)) (idx / 2)
    | none => []
termination_by l _ => l.length
decreasing_by
  simp [nextLevel, nextLevel_length]
  omega

/-- MerkleTree.generate_proof (for an in-range index; the source
raises IndexError outside the range, and e0 is only a formal default
never read in range). -/
def generateProof (comb : α → α → α) (e0 : α) (leaves : List α) (idx : ℕ) :
    MProof α :=
  { leaf := leaves.getD idx e0
    path := proofPath comb leaves idx
    root := rootFrom comb e0 leaves }

theorem sibAt_step (comb : α → α → α) (e0 : α) :
    ∀ (l : List α) (idx : ℕ), idx < l.length →
      ∃ sd, sibAt l idx = some sd ∧
        opStep comb (l.getD idx e0) sd = (nextLevel comb l).getD (idx / 2) e0
  | [], _ => by intro h; simp at h
  | [a], 0 => by intro _; exact ⟨(a, .right), rfl, rfl⟩
  | [_], n + 1 => by intro h; simp at h
  | _ :: b :: _, 0 => by intro _; exact ⟨(b, .right), rfl, rfl⟩
  | a :: _ :: _, 1 => by intro _; exact ⟨(a, .left), rfl, rfl⟩
  | a :: b :: rest, n + 2 => by
      intro h
      have hn : n < rest.length := by
        simp at h
        omega
      obtain ⟨sd, h1, h2⟩ := sibAt_step comb e0 rest n hn
      refine ⟨sd, h1, ?_⟩
      have hdiv : (n + 2) / 2 = n / 2 + 1 := by omega
      rw [hdiv]
      show opStep comb (List.getD (a :: b :: rest) (n + 2) e0) sd =
        List.getD (comb a b :: nextLevel comb rest) (n / 2 + 1) e0
      rw [List.getD_cons_succ, List.getD_cons_succ, List.getD_cons_succ]
      exact h2

theorem foldPath_proofPath (comb : α → α → α) (e0 : α) :
    ∀ (n : ℕ) (l : List α), l.length = n → ∀ idx, idx < l.length →
      foldPath comb (l.getD idx e0) (proofPath comb l idx) =
        rootFrom comb e0 l := by
  intro n
  induction n using Nat.strong_induction_on with
  | _ n ih =>
    intro l hl idx hidx
    rcases l with _ | ⟨a, _ | ⟨b, rest⟩⟩
    · simp at hidx
    · have hz : idx = 0 := by simpa using hidx
      subst hz
      simp [proofPath, foldPath, rootFrom]
    · obtain ⟨sd, hs, hstep⟩ := sibAt_step comb e0 (a :: b :: rest) idx hidx
      have hnl : (nextLevel comb (a :: b :: rest)).length =
          ((a :: b :: rest).length + 1) / 2 := nextLevel_length comb _
      have hlt : (nextLevel comb (a :: b :: rest)).length < n := by
        simp at hnl hl ⊢
        omega
      have hidx2 : idx / 2 < (nextLevel comb (a :: b :: rest)).length := by
        simp at hnl hidx ⊢
        omega
      have hrec := ih _ hlt (nextLevel comb (a :: b :: rest)) rfl (idx / 2) hidx2
      rw [proofPath, hs]
      show foldPath comb (List.getD (a :: b :: rest) idx e0)
        (sd :: proofPath comb (nextLevel comb (a :: b :: rest)) (idx / 2)) = _
      rw [foldPath, List.foldl_cons]
      have hmid : List.foldl (opStep comb)
          (opStep comb (List.getD (a :: b :: rest) idx e0) sd)
          (proofPath comb (nextLevel comb (a :: b :: rest)) (idx / 2)) =
          foldPath comb ((nextLevel comb (a :: b :: rest)).getD (idx / 2) e0)
            (proofPath comb (nextLevel comb (a :: b :: rest)) (idx / 2)) := by
        rw [hstep]; rfl
      rw [hmid, hrec]
      have hun : rootFrom comb e0 (a :: b :: rest) =
          rootFrom comb e0 (nextLevel comb (a :: b :: rest)) := by
        simp only [rootFrom]
      exact hun.symm

/-- C2: for every Merkle tree with at least one leaf and every
in-range index, the generated proof verifies: folding the leaf hash
along the sibling path reproduces the embedded root. -/
theorem merkle_generate_proof_verifies [DecidableEq α] (comb : α → α → α)
    (e0 : α) (leaves : List α) (i : ℕ)
    (_hk : 1 ≤ leaves.length) (hi : i < leaves.length) :
    (generateProof comb e0 leaves i).verify comb = true :=
  decide_eq_true (foldPath_proofPath comb e0 leaves.length leaves rfl i hi)

/-- C2 witness: the proof for index 2 of a concrete three-leaf tree
over a concrete combining function verifies. -/
theorem merkle_generate_proof_verifies_witness :
    (generateProof (fun a b : ℕ => 2 ^ a * 3 ^ b) 0 [5, 7, 9] 2).verify
      (fun a b : ℕ => 2 ^ a * 3 ^ b) = true :=
  merkle_generate_proof_verifies (fun a b : ℕ => 2 ^ a * 3 ^ b) 0 [5, 7, 9] 2
    (by decide) (by decide)

theorem nextLevel_inj (comb : α → α → α)
    (hcomb : ∀ a b c d, comb a b = comb c d → a = c ∧ b = d) :
    ∀ (l l' : List α), l.length = l'.length →
      nextLevel comb l = nextLevel comb l' → l = l'
  | [], [] => by intro _ _; rfl
  | [], _ :: _ => by intro h _; simp at h
  | _ :: _, [] => by intro h _; simp at h
  | [a], [b] => by
      intro _ h
      simp [nextLevel] at h
      obtain ⟨h1, _⟩ := hcomb _ _ _ _ h
      simp [h1]
  | [_], _ :: _ :: r' => by intro h _; simp at h
  | _ :: _ :: r, [_] => by intro h _; simp at h
  | a :: b :: r, c :: d :: r' => by
      intro hlen h
      simp [nextLevel] at h
      obtain ⟨h1, h2⟩ := h
      obtain ⟨ha, hb⟩ := hcomb _ _ _ _ h1
      have hr : r = r' := by
        apply nextLevel_inj comb hcomb r r' (by simpa using hlen) h2
      simp [ha, hb, hr]

/-- Collision-free combining makes the root of a nonempty leaf list
injective among lists of the same length. -/
theorem rootFrom_inj (comb : α → α → α) (e0 : α)
    (hcomb : ∀ a b c d, comb a b = comb c d → a = c ∧ b = d) :
    ∀ (n : ℕ) (l l' : List α), l.length = n → l.length = l'.length →
      1 ≤ l.length → rootFrom comb e0 l = rootFrom comb e0 l' → l = l' := by
  intro n
  induction n using Nat.strong_induction_on with
  | _ n ih =>
    intro l l' hl hlen hpos hroot
    rcases l with _ | ⟨a, _ | ⟨b, r⟩⟩
    · simp at hpos
    · rcases l' with _ | ⟨c, _ | ⟨d, r'⟩⟩
      · simp at hlen
      · simp [rootFrom] at hroot
        simp [hroot]
      · simp at hlen
    · rcases l' with _ | ⟨c, _ | ⟨d, r'⟩⟩
      · simp at hlen
      · simp at hlen
      · simp only [rootFrom] at hroot
        have hnlen : (nextLevel comb (a :: b :: r)).length =
            (nextLevel comb (c :: d :: r')).length := by
          rw [nextLevel_length, nextLevel_length, hlen]
        have hlt : (nextLevel comb (a :: b :: r)).length < n := by
          rw [nextLevel_length]
          simp at hl ⊢
          omega
        have hpos2 : 1 ≤ (nextLevel comb (a :: b :: r)).length := by
          rw [nextLevel_length]
          simp
          omega
        have hnl := ih _ hlt (nextLevel comb (a :: b :: r))
          (nextLevel comb (c :: d :: r')) rfl hnlen hpos2 hroot
        exact nextLevel_inj comb hcomb _ _ hlen hnl

/-!
## nuledger.ledger and nuledger.backends

Source: src/src/nuledger/ledger.py and backends.py.  An entry's
SHA-256 over its canonical JSON without the signature field is
modelled by an abstract function on the signature-stripped record;
uuid generation and Ed25519 signing are explicit parameters.  The
backend is the MemoryBackend: an ordered list of entries with lookup
by op_id.
-/

/-- Embedding of LedgerEntry.  The timestamp field is the monotonic
sequence counter of the ledger (an integer, not wall clock). -/
structure Entry where
  timestamp : ℤ
  op_id : String
  parent_id : Option String
  operation : String
  inputs : List (FP × FP)
  output : FP × FP
  coverage : FP
  invariant_passed : Bool
  signature : String
deriving DecidableEq, Repr

/-- The fields of a LedgerEntry that enter its hash: everything except
the signature (LedgerEntry.hash pops the signature before the
canonical serialization). -/
structure EntryCore where
  timestamp : ℤ
  op_id : String
  parent_id : Option String
  operation : String
  inputs : List (FP × FP)
  output : FP × FP
  coverage : FP
  invariant_passed : Bool
deriving DecidableEq, Repr

/-- Drop the signature field, as LedgerEntry.hash does before hashing. -/
def Entry.stripSig (e : Entry) : EntryCore :=
  { timestamp := e.timestamp
    op_id := e.op_id
    parent_id := e.parent_id
    operation := e.operation
    inputs := e.inputs
    output := e.output
    coverage := e.coverage
    invariant_passed := e.invariant_passed }

/-- LedgerEntry.hash: SHA-256 of the canonical serialization of the
record without its signature, modelled by an abstract hash function h0
on the signature-stripped record. -/
def entryHash (h0 : EntryCore → α) (e : Entry) : α :=
  h0 e.stripSig

/-- The mutable state of a Ledger over a MemoryBackend: the stored
entries, the Merkle tree leaves, and the monotonic counter. -/
structure LedgerState (α : Type) where
  backend : List Entry
  leaves : List α
  counter : ℤ

/-- Ledger construction over an existing backend: the Merkle tree is
reloaded from the stored entries' hashes, and the timestamp counter is
set to zero (the source initializes _timestamp_counter = 0 and never
consults the backend for it). -/
def ledgerInit (h0 : EntryCore → α) (backend : List Entry) : LedgerState α :=
  { backend := backend
    leaves := backend.map (entryHash h0)
    counter := 0 }

/-- Ledger.append: increment the counter, build the entry with the
fresh op_id and the given fields, sign its hash, extend the Merkle
tree with the hash, store the entry.  The fresh uuid and the signing
function are explicit parameters. -/
def ledgerAppend (h0 : EntryCore → α) (sign : α → String)
    (st : LedgerState α) (operation : String) (inputs : List (FP × FP))
    (output : FP × FP) (coverage : FP) (invariant_passed : Bool)
    (parent_id : Option String) (fresh_op_id : String) :
    LedgerState α × Entry :=
  let ts := st.counter + 1
  let core : EntryCore :=
    { timestamp := ts
      op_id := fresh_op_id
      parent_id := parent_id
      operation := operation
      inputs := inputs
      output := output
      coverage := coverage
      invariant_passed := invariant_passed }
  let h := h0 core
  let entry : Entry :=
    { timestamp := ts
      op_id := fresh_op_id
      parent_id := parent_id
      operation := operation
      inputs := inputs
      output := output
      coverage := coverage
      invariant_passed := invariant_passed
      signature := sign h }
  ({ backend := st.backend ++ [entry]
     leaves := st.leaves ++ [h]
     counter := ts }, entry)

/-- The timestamp monotonicity scan of Ledger.verify_integrity,
starting from last_timestamp = -1. -/
def monotonicCheck : ℤ → List Entry → Bool
  | _, [] => true
  | last, e :: rest =>
    if e.timestamp ≤ last then false else monotonicCheck e.timestamp rest

/-- Ledger.verify_integrity: the timestamp scan, then recompute the
Merkle tree from the stored entries' hashes and compare with the
ledger's own tree root.  (Per-entry signature verification is a
documented gap of the source and is absent.) -/
def verifyIntegrity [DecidableEq α] (h0 : EntryCore → α)
    (comb : α → α → α) (e0 : α) (st : LedgerState α) : Bool :=
  monotonicCheck (-1) st.backend &&
    decide (rootFrom comb e0 (st.backend.map (entryHash h0)) =
      rootFrom comb e0 st.leaves)

/-- MemoryBackend.get: lookup of an entry by its op_id. -/
def lookupEntry (backend : List Entry) (oid : String) : Option Entry :=
  backend.find? (fun e => e.op_id == oid)

/-- The parent-link walk of Ledger.trace, in discovery order.  The
fuel argument bounds the iterations: the source's while loop
terminates exactly when the parent chain is acyclic, and an acyclic
chain visits each stored entry at most once, so backend.length + 1
fuel is enough (on a cyclic chain the source diverges, which is
outside the modelled domain). -/
def traceAux (backend : List Entry) :
    ℕ → Option String → List Entry → List Entry
  | 0, _, chain => chain
  | _ + 1, none, chain => chain
  | fuel + 1, some oid, chain =>
    match lookupEntry backend oid with
    | none => chain
    | some e => traceAux backend fuel e.parent_id (chain ++ [e])

/-- Ledger.trace: walk parent links backward collecting entries, then
reverse into chronological order. -/
def trace (st : LedgerState α) (oid : String) : List Entry :=
  (traceAux st.backend (st.backend.length + 1) (some oid) []).reverse

/-- C1: the spec requires the sequence counter to be initialized from
the backend's maximum on construction, and the code's own
verify_integrity requires strictly monotonic timestamps; but
Ledger.__init__ always starts at zero.  Over a backend already holding
an entry of timestamp 1, the first append after reconstruction gets
timestamp 1 again (not strictly greater), and verify_integrity on the
resulting ledger returns false. -/
theorem ledger_reconstruction_counter_bug {α : Type} [DecidableEq α]
    (h0 : EntryCore → α) (comb : α → α → α) (e0 : α) (sign : α → String) :
    let prior : Entry :=
      { timestamp := 1, op_id := "a", parent_id := none, operation := "add"
        inputs := [], output := (FP.fin 1, FP.fin 0), coverage := FP.fin 0
        invariant_passed := true, signature := "sig" }
    let st : LedgerState α := ledgerInit h0 [prior]
    let res := ledgerAppend h0 sign st "add" [] (FP.fin 1, FP.fin 0)
      (FP.fin 0) true none "b"
    res.2.timestamp = prior.timestamp ∧
      verifyIntegrity h0 comb e0 res.1 = false := by
  constructor
  · rfl
  · rfl

/-- Hash values as formal binary trees over signature-stripped
records: a concrete collision-free instantiation of the abstract hash
used by the C3 witness. -/
inductive HTree where
  | leaf (c : EntryCore)
  | node (l r : HTree)
deriving DecidableEq, Repr

/-- A sample stored entry used by the concrete ledger scenarios. -/
def entSig : Entry :=
  { timestamp := 1, op_id := "a", parent_id := none, operation := "add"
    inputs := [], output := (FP.fin 1, FP.fin 0), coverage := FP.fin 0
    invariant_passed := true, signature := "sig" }

/-- entSig with a forged signature: every other field is unchanged. -/
def entForged : Entry := { entSig with signature := "forged" }

/-- entSig with a tampered coverage field: every other field,
including the signature, is unchanged. -/
def entCov : Entry := { entSig with coverage := FP.fin 9 }

/-- A second sample entry whose parent link points at entSig. -/
def entB : Entry :=
  { timestamp := 2, op_id := "b", parent_id := some "a"
    operation := "multiply", inputs := [], output := (FP.fin 2, FP.fin 0)
    coverage := FP.fin 0, invariant_passed := true, signature := "s2" }

/-- C3 counterexample: the claim quantifies over every field, but the
record hash excludes the signature; forging the signature of the only
stored record leaves the recomputed root unchanged and
verify_integrity still returns true. -/
theorem verify_integrity_signature_tamper_passes :
    entForged ≠ entSig ∧
      verifyIntegrity HTree.leaf HTree.node (HTree.leaf entSig.stripSig)
        { backend := [entForged]
          leaves := [entSig].map (entryHash HTree.leaf)
          counter := 1 } = true := by
  refine ⟨by decide, ?_⟩
  rw [verifyIntegrity, Bool.and_eq_true]
  exact ⟨by decide, decide_eq_true rfl⟩

/-- C3 (amended): changing any single field other than the signature
of any stored record, while the ledger's cached Merkle leaves are
unchanged, changes the recomputed root and makes verify_integrity
return false.  Collision resistance of SHA-256 appears as the
injectivity hypotheses on the record hash and on the combining
function. -/
theorem verify_integrity_detects_tamper {α : Type} [DecidableEq α]
    (h0 : EntryCore → α) (comb : α → α → α) (e0 : α) (c : ℤ)
    (hinj : Function.Injective h0)
    (hcomb : ∀ a b c d, comb a b = comb c d → a = c ∧ b = d)
    (b1 b2 : List Entry) (e e' : Entry)
    (hdiff : e'.stripSig ≠ e.stripSig) :
    verifyIntegrity h0 comb e0
      { backend := b1 ++ e' :: b2
        leaves := (b1 ++ e :: b2).map (entryHash h0)
        counter := c } = false := by
  have hlen : ((b1 ++ e' :: b2).map (entryHash h0)).length =
      ((b1 ++ e :: b2).map (entryHash h0)).length := by simp
  have hne : (b1 ++ e' :: b2).map (entryHash h0) ≠
      (b1 ++ e :: b2).map (entryHash h0) := by
    intro hmap
    simp only [List.map_append, List.map_cons] at hmap
    have hc := List.append_cancel_left hmap
    have hh : entryHash h0 e' = entryHash h0 e := by
      injection hc
    exact hdiff (hinj hh)
  have hpos : 1 ≤ ((b1 ++ e' :: b2).map (entryHash h0)).length := by
    simp
    omega
  have hroot : rootFrom comb e0 ((b1 ++ e' :: b2).map (entryHash h0)) ≠
      rootFrom comb e0 ((b1 ++ e :: b2).map (entryHash h0)) := by
    intro h
    exact hne (rootFrom_inj comb e0 hcomb _ _ _ rfl hlen hpos h)
  rw [verifyIntegrity]
  simp only [decide_eq_false hroot, Bool.and_false]

/-- C3 witness: tampering with the coverage field of the first of two
stored records is detected. -/
theorem verify_integrity_detects_tamper_witness :
    verifyIntegrity HTree.leaf HTree.node (HTree.leaf entSig.stripSig)
      { backend := [] ++ entCov :: [entB]
        leaves := ([] ++ entSig :: [entB]).map (entryHash HTree.leaf)
        counter := 2 } = false :=
  verify_integrity_detects_tamper HTree.leaf HTree.node
    (HTree.leaf entSig.stripSig) 2
    (fun a b h => by injection h)
    (fun a b c d h => by injection h with h1 h2; exact ⟨h1, h2⟩)
    [] [entB] entSig entCov (by decide)

/-- The parent-link discovery relation of Ledger.trace: the entries
collected, in discovery order, when walking parent links from an
op_id, stopping at a missing parent or an absent parent link. -/
inductive Discovers (backend : List Entry) : Option String → List Entry → Prop where
  | stop_none : Discovers backend none []
  | stop_missing (oid : String) :
      lookupEntry backend oid = none → Discovers backend (some oid) []
  | step (oid : String) (e : Entry) (cs : List Entry) :
      lookupEntry backend oid = some e → Discovers backend e.parent_id cs →
      Discovers backend (some oid) (e :: cs)

theorem traceAux_discovers {backend : List Entry} {o : Option String}
    {cs : List Entry} (hd : Discovers backend o cs) :
    ∀ fuel, cs.length ≤ fuel → ∀ acc,
      traceAux backend fuel o acc = acc ++ cs := by
  induction hd with
  | stop_none =>
      intro fuel _ acc
      cases fuel <;> simp [traceAux]
  | stop_missing oid hnone =>
      intro fuel _ acc
      cases fuel <;> simp [traceAux, hnone]
  | step oid e cs hfind _ ih =>
      intro fuel hlen acc
      cases fuel with
      | zero => simp at hlen
      | succ f =>
        rw [traceAux, hfind]
        show traceAux backend f e.parent_id (acc ++ [e]) = acc ++ e :: cs
        rw [ih f (by simpa using hlen) (acc ++ [e])]
        simp

/-- C10: tracing an op_id with no stored record returns the empty list;
in general the trace is exactly the discovered parent chain, reversed
into chronological order, stopping cleanly at a dangling parent link. -/
theorem trace_spec {α : Type} (st : LedgerState α) (oid : String) :
    (lookupEntry st.backend oid = none → trace st oid = []) ∧
    (∀ cs, Discovers st.backend (some oid) cs →
      cs.length ≤ st.backend.length → trace st oid = cs.reverse) := by
  constructor
  · intro h
    rw [trace, traceAux, h]
    rfl
  · intro cs hd hlen
    rw [trace, traceAux_discovers hd (st.backend.length + 1) (by omega) []]
    rfl

/-- A variant of entSig whose parent link dangles (points at an op_id
absent from the backend). -/
def entDangling : Entry := { entSig with parent_id := some "gone" }

/-- C10 witness: in a two-entry backend whose oldest entry has a
dangling parent link, tracing the newest op_id returns both entries in
chronological order. -/
theorem trace_spec_witness :
    trace (α := Unit)
      { backend := [entDangling, entB], leaves := [], counter := 2 } "b" =
      [entB, entDangling].reverse :=
  (trace_spec { backend := [entDangling, entB], leaves := [], counter := 2 }
      "b").2 [entB, entDangling]
    (Discovers.step "b" entB [entDangling] (by decide)
      (Discovers.step "a" entDangling [] (by decide)
        (Discovers.stop_missing "gone" (by decide))))
    (by decide)

/-!
## nuguard.events, nuguard.rules, nuguard.monitor

Source: src/src/nuguard/events.py, rules.py, monitor.py.  Event
messages and wall-clock timestamps are not modelled (no claim reads
them); the data dictionary is modelled by its three keys that
Monitor._log_to_ledger reads, each optional.  Handlers only perform
I/O on the event they receive, so they are modelled as an opaque
list whose dispatch does not change monitor or ledger state; the
RuntimeError raised under halt_on_critical is modelled as a returned
Boolean flag.  Rule thresholds are finite floats in every construction
of the source and are modelled as rationals.
-/

/-- Event severity levels, ordered as written. -/
inductive EventLevel where
  | info
  | warning
  | error
  | critical
deriving DecidableEq, Repr

/-- The position of a level in the total order of EventLevel.__lt__. -/
def EventLevel.toNat : EventLevel → ℕ
  | .info => 0
  | .warning => 1
  | .error => 2
  | .critical => 3

/-- EventLevel.__lt__. -/
def EventLevel.lt (a b : EventLevel) : Bool :=
  decide (a.toNat < b.toNat)

/-- Python max over a nonempty list of levels (keeps the earliest of
equal maxima).  The empty case is unreachable from the source: Python
max raises on an empty sequence. -/
def levelMaxList : List EventLevel → EventLevel
  | [] => .info
  | l :: ls => ls.foldl (fun acc x => if acc.lt x then x else acc) l

/-- The keys of the event data dictionary that the monitor's ledger
logging reads, each present or absent. -/
structure EventData where
  inputs : Option (List (FP × FP)) := none
  output : Option (FP × FP) := none
  coverage : Option FP := none
deriving DecidableEq, Repr

/-- Embedding of Event (level, triggering operation, data map, and the
op_id set after auto-logging; message and wall-clock timestamp are not
modelled). -/
structure Event where
  level : EventLevel
  operation : String
  data : EventData
  op_id : Option String := none
deriving DecidableEq, Repr

/-- CompositeRule mode, the lowercased strings "or" and "and" of the
source (any other string raises ValueError in __init__). -/
inductive Mode where
  | orMode
  | andMode
deriving DecidableEq, Repr

/-- The closed rule variants of nuguard.rules; CustomRule carries its
check function. -/
inductive Rule where
  | coverageRule (threshold : ℚ) (level : EventLevel)
  | invariantRule
  | thresholdRule (max_uncertainty : ℚ) (level : EventLevel)
  | compositeRule (rules : List Rule) (mode : Mode)
  | customRule (f : String → List (FP × FP) → FP × FP → Option Event)

/-- The coverage computation of CoverageRule.check: +inf for a zero
nominal with positive uncertainty, 0 for a zero nominal with
non-positive uncertainty, u / abs(n) otherwise. -/
def coverageOf (output : FP × FP) : FP :=
  if output.1.eqZero then
    (if FP.lt (.fin 0) output.2 then .inf else .fin 0)
  else
    output.2.div output.1.fabs

/-- Rule.check of each variant, in the source's test order. -/
def Rule.check : Rule → String → List (FP × FP) → FP × FP → Option Event
  | .coverageRule t lvl, op, inputs, output =>
    let cov := coverageOf output
    if FP.lt (.fin t) cov then
      some { level := lvl, operation := op
             data := { inputs := some inputs, output := some output
                       coverage := some cov } }
    else
      none
  | .invariantRule, op, inputs, output =>
    if FP.lt output.2 (.fin 0) then
      some { level := .critical, operation := op
             data := { inputs := some inputs, output := some output } }
    else if output.1.isNaN || output.2.isNaN then
      some { level := .critical, operation := op
             data := { inputs := some inputs, output := some output } }
    else if output.1.fabs = FP.inf then
      some { level := .critical, operation := op
             data := { inputs := some inputs, output := some output } }
    else
      none
  | .thresholdRule m lvl, op, inputs, output =>
    if FP.lt (.fin m) output.2 then
      some { level := lvl, operation := op
             data := { inputs := some inputs, output := some output } }
    else
      none
  | .compositeRule rules mode, op, inputs, output =>
    let events := rules.attach.filterMap fun r => Rule.check r.1 op inputs output
    (match mode with
     | .orMode => events.head?
     | .andMode =>
       if events.length = rules.length then
         some { level := levelMaxList (events.map (·.level)), operation := op
                data := {} }
       else
         none)
  | .customRule f, op, inputs, output => f op inputs output
termination_by r _ _ _ => sizeOf r
decreasing_by
  have hm := List.sizeOf_lt_of_mem r.2
  simp
  omega

/-- Embedding of MonitorConfig after construction. -/
structure MonitorConfig where
  rules : List Rule
  handlers : List Unit
  auto_log : Bool
  halt_on_critical : Bool

/-- MonitorConfig construction including __post_init__: an empty rules
list is replaced by the default InvariantRule followed by
CoverageRule(0.1, WARNING). -/
def mkMonitorConfig (rules : List Rule) (handlers : List Unit)
    (auto_log halt_on_critical : Bool) : MonitorConfig :=
  if rules.isEmpty then
    { rules := [.invariantRule, .coverageRule (1 / 10) .warning]
      handlers := handlers, auto_log := auto_log
      halt_on_critical := halt_on_critical }
  else
    { rules := rules, handlers := handlers, auto_log := auto_log
      halt_on_critical := halt_on_critical }

/-- The state of a Monitor: configuration, optional ledger, counters. -/
structure MonitorState (α : Type) where
  config : MonitorConfig
  ledger : Option (LedgerState α)
  event_count : ℕ
  violation_count : ℕ

/-- Monitor._log_to_ledger: append a guard_<op> entry built from the
event's data map (with the source's defaults for absent keys) and
annotate the event with the new entry's op_id. -/
def logToLedger (h0 : EntryCore → α) (sign : α → String)
    (L : LedgerState α) (e : Event) (fresh : String) :
    LedgerState α × Event :=
  let inputs := e.data.inputs.getD []
  let output := e.data.output.getD (FP.fin 0, FP.inf)
  let cov := e.data.coverage.getD FP.inf
  let res := ledgerAppend h0 sign L ("guard_" ++ e.operation) inputs output
    cov (e.level != EventLevel.critical) none fresh
  (res.1, { e with op_id := some res.2.op_id })

/-- Monitor._handle_event: auto-log when configured and a ledger is
attached, dispatch to handlers (no modelled effect), and report
whether halt_on_critical fired (the source raises RuntimeError). -/
def handleEvent (h0 : EntryCore → α) (sign : α → String)
    (st : MonitorState α) (e : Event) (fresh : String) :
    MonitorState α × Event × Bool :=
  let logged :=
    if st.config.auto_log then
      match st.ledger with
      | some L =>
        let res := logToLedger h0 sign L e fresh
        ({ st with ledger := some res.1 }, res.2)
      | none => (st, e)
    else
      (st, e)
  (logged.1, logged.2,
    st.config.halt_on_critical && decide (e.level = .critical))

/-- Monitor.check: evaluate rules in order, stop at the first event,
bump the counters, run the handler/ledger pipeline, and return the
(possibly op_id-annotated) event together with the halt flag. -/
def monitorCheck (h0 : EntryCore → α) (sign : α → String)
    (st : MonitorState α) (op : String) (inputs : List (FP × FP))
    (output : FP × FP) (fresh : String) :
    MonitorState α × Option Event × Bool :=
  match st.config.rules.findSome? (fun r => r.check op inputs output) with
  | none => (st, none, false)
  | some e =>
    let st1 : MonitorState α :=
      { st with
        event_count := st.event_count + 1
        violation_count := st.violation_count +
          (if e.level = .error ∨ e.level = .critical then 1 else 0) }
    let res := handleEvent h0 sign st1 e fresh
    (res.1, some res.2.1, res.2.2)

/-- Monitor.monitor: true exactly when check produced no event. -/
def monitorOp (h0 : EntryCore → α) (sign : α → String)
    (st : MonitorState α) (op : String) (inputs : List (FP × FP))
    (output : FP × FP) (fresh : String) : Bool :=
  (monitorCheck h0 sign st op inputs output fresh).2.1.isNone

/-- C6 counterexample: a MonitorConfig constructed with an empty rules
list receives the default rules, so the resulting monitor does emit an
event (here the default InvariantRule fires on a NaN nominal). -/
theorem monitor_empty_constructed_config_fires :
    ((monitorCheck (α := Unit) (fun _ => ()) (fun _ => "")
        { config := mkMonitorConfig [] [] true false, ledger := none
          event_count := 0, violation_count := 0 }
        "add" [] (FP.nan, FP.fin 1) "id").2.1).isSome = true := by
  simp [monitorCheck, mkMonitorConfig, Rule.check, FP.lt, FP.isNaN,
    handleEvent]

/-- C6 (amended): a monitor whose configuration holds no rules returns
no event and leaves its state untouched for every input, and
monitor(...) returns true; but a MonitorConfig constructed with an
empty rules list does not stay empty: __post_init__ installs
InvariantRule followed by CoverageRule(0.1, WARNING). -/
theorem monitor_no_rules_spec {α : Type} (h0 : EntryCore → α)
    (sign : α → String) (st : MonitorState α) (op : String)
    (inputs : List (FP × FP)) (output : FP × FP) (fresh : String)
    (hempty : st.config.rules = []) :
    monitorCheck h0 sign st op inputs output fresh = (st, none, false) ∧
    monitorOp h0 sign st op inputs output fresh = true ∧
    ∀ (handlers : List Unit) (al hc : Bool),
      (mkMonitorConfig [] handlers al hc).rules =
        [.invariantRule, .coverageRule (1 / 10) .warning] := by
  refine ⟨?_, ?_, ?_⟩
  · simp [monitorCheck, hempty]
  · simp [monitorOp, monitorCheck, hempty]
  · intro handlers al hc
    rfl

/-- C6 witness: a monitor over a directly built empty-rules
configuration returns no event on a NaN output. -/
theorem monitor_no_rules_spec_witness :
    monitorCheck (α := Unit) (fun _ => ()) (fun _ => "")
      { config := { rules := [], handlers := [], auto_log := true
                    halt_on_critical := false }
        ledger := none, event_count := 0, violation_count := 0 }
      "add" [] (FP.nan, FP.fin 1) "id" =
      ({ config := { rules := [], handlers := [], auto_log := true
                     halt_on_critical := false }
         ledger := none, event_count := 0, violation_count := 0 },
        none, false) :=
  (monitor_no_rules_spec (fun _ => ()) (fun _ => "") _ "add" [] (FP.nan, FP.fin 1)
    "id" rfl).1

/-- The violation condition on an output pair as the specification
words it: the output uncertainty is negative, either output component
is NaN, or the output nominal is positive or negative infinity. -/
def invariantSpecViolation (n u : FP) : Bool :=
  (match u with
    | .neginf => true
    | .fin q => decide (q < 0)
    | _ => false) ||
  (match n with
    | .nan => true
    | _ => false) ||
  (match u with
    | .nan => true
    | _ => false) ||
  (match n with
    | .inf => true
    | .neginf => true
    | _ => false)

/-- C7: InvariantRule emits a CRITICAL event exactly when the output
uncertainty is negative, an output component is NaN, or the output
nominal is infinite; in particular the reserved failure state with
finite nominal and u = +inf yields no event. -/
theorem invariant_rule_spec (op : String) (inputs : List (FP × FP))
    (n u : FP) :
    Rule.check .invariantRule op inputs (n, u) =
      (if invariantSpecViolation n u then
        some { level := .critical, operation := op
               data := { inputs := some inputs, output := some (n, u) } }
      else none) := by
  cases n <;> cases u <;>
    simp [Rule.check, invariantSpecViolation, FP.lt, FP.isNaN, FP.fabs]

/-- C8: with auto_log on and a ledger attached, a check that produces
an event appends exactly one entry, tagged guard_ followed by the
event's operation, and a check that produces no event leaves the
monitor state (ledger included) unchanged. -/
theorem monitor_autolog_frame {α : Type} (h0 : EntryCore → α)
    (sign : α → String) (st : MonitorState α) (L : LedgerState α)
    (op : String) (inputs : List (FP × FP)) (output : FP × FP)
    (fresh : String)
    (hlog : st.config.auto_log = true) (hled : st.ledger = some L) :
    (∀ e, (monitorCheck h0 sign st op inputs output fresh).2.1 = some e →
      ∃ L', (monitorCheck h0 sign st op inputs output fresh).1.ledger =
          some L' ∧
        L'.backend.length = L.backend.length + 1 ∧
        ∃ entry, L'.backend = L.backend ++ [entry] ∧
          entry.operation = "guard_" ++ e.operation) ∧
    ((monitorCheck h0 sign st op inputs output fresh).2.1 = none →
      (monitorCheck h0 sign st op inputs output fresh).1 = st) := by
  rcases hf : st.config.rules.findSome? (fun r => r.check op inputs output)
    with _ | e0
  · constructor
    · intro e he
      simp [monitorCheck, hf] at he
    · intro _
      simp [monitorCheck, hf]
  · constructor
    · intro e _
      refine ⟨(ledgerAppend h0 sign L ("guard_" ++ e0.operation)
        (e0.data.inputs.getD []) (e0.data.output.getD (FP.fin 0, FP.inf))
        (e0.data.coverage.getD FP.inf)
        (e0.level != EventLevel.critical) none fresh).1, ?_, ?_, ?_⟩
      · simp [monitorCheck, hf, handleEvent, hlog, hled, logToLedger]
      · simp [ledgerAppend]
      · refine ⟨_, rfl, ?_⟩
        have he' : e.operation = e0.operation := by
          have h2 : (monitorCheck h0 sign st op inputs output fresh).2.1 =
              some e := by assumption
          simp [monitorCheck, hf, handleEvent, hlog, hled, logToLedger] at h2
          rw [← h2]
        simp [he']
    · intro hnone
      simp [monitorCheck, hf, handleEvent, hlog, hled, logToLedger] at hnone

/-- C8 witness: on a monitor with auto_log on, an attached empty
ledger, and the single InvariantRule, a NaN output appends exactly one
guard_add entry. -/
theorem monitor_autolog_frame_witness :
    ∃ L', (monitorCheck (α := Unit) (fun _ => ()) (fun _ => "")
        { config := { rules := [.invariantRule], handlers := []
                      auto_log := true, halt_on_critical := false }
          ledger := some { backend := [], leaves := [], counter := 0 }
          event_count := 0, violation_count := 0 }
        "add" [] (FP.nan, FP.fin 1) "id").1.ledger = some L' ∧
      L'.backend.length =
        (LedgerState.backend (α := Unit)
          { backend := [], leaves := [], counter := 0 }).length + 1 ∧
      ∃ entry, L'.backend =
          (LedgerState.backend (α := Unit)
            { backend := [], leaves := [], counter := 0 }) ++ [entry] ∧
        entry.operation = "guard_" ++
          Event.operation
            { level := .critical, operation := "add"
              data := { inputs := some [], output := some (FP.nan, FP.fin 1) }
              op_id := some "id" } :=
  (monitor_autolog_frame (fun _ => ()) (fun _ => "") _ _ "add" [] (FP.nan, FP.fin 1)
    "id" rfl rfl).1
    { level := .critical, operation := "add"
      data := { inputs := some [], output := some (FP.nan, FP.fin 1) }
      op_id := some "id" }
    (by simp [monitorCheck, Rule.check, FP.lt, FP.isNaN, handleEvent,
      logToLedger, ledgerAppend])

/-!
## nupolicy.validator

Source: src/src/nupolicy/validator.py, PolicyValidator._validate_rule.
JSON values are modelled by JValue (numbers as rationals; Python bools,
which are ints for isinstance checks, are not modelled — no claim
touches them).  The error strings of the source are modelled by the
RuleErr constructors, one per distinct message, in the source's
emission order; the embedded rule index of each message is dropped.
-/

/-- A JSON value as found in a policy document's rule list. -/
inductive JValue where
  | jnum (q : ℚ)
  | jstr (s : String)
  | jlist (items : List JValue)
  | jdict (entries : List (String × JValue))

/-- Python equality test of a JSON value against a string literal. -/
def JValue.isStr : JValue → String → Bool
  | .jstr t, s => t == s
  | _, _ => false

/-- Python dict lookup (get) on a JSON object; none on non-dicts. -/
def jget : JValue → String → Option JValue
  | .jdict entries, k => (entries.find? (fun p => p.1 == k)).map (·.2)
  | _, _ => none

/-- The validation errors _validate_rule can emit, one constructor per
distinct message. -/
inductive RuleErr where
  | notDict
  | missingType
  | unknownType
  | covMissingThreshold
  | covThresholdNotNumeric
  | covThresholdRange
  | thrMissing
  | thrNotNumeric
  | thrNegative
  | compMissingRules
  | compBadMode
  | badLevel
deriving DecidableEq, Repr

/-- Is the value one of the recognized rule type names? -/
def isValidRuleType (v : JValue) : Bool :=
  v.isStr "CoverageRule" || v.isStr "InvariantRule" ||
    v.isStr "ThresholdRule" || v.isStr "CompositeRule" ||
    v.isStr "CustomRule"

/-- Is the value one of the recognized event level names? -/
def isValidLevel (v : JValue) : Bool :=
  v.isStr "info" || v.isStr "warning" || v.isStr "error" ||
    v.isStr "critical"

/-- PolicyValidator._validate_rule: type check, per-variant parameter
checks (the elif chain means at most one variant branch runs), then
the level check; errors are collected in the source's order. -/
def validateRule (rule : JValue) (_index : ℕ) : List RuleErr :=
  match rule with
  | .jdict entries =>
    let r := JValue.jdict entries
    let rule_type := jget r "type"
    let typeMatches := fun (s : String) =>
      match rule_type with
      | some t => t.isStr s
      | none => false
    let typeErrs :=
      match rule_type with
      | none => [RuleErr.missingType]
      | some t => if isValidRuleType t then [] else [RuleErr.unknownType]
    let covErrs :=
      if typeMatches "CoverageRule" then
        match jget r "threshold" with
        | none => [RuleErr.covMissingThreshold]
        | some (.jnum q) =>
          if q < 0 ∨ q > 1 then [RuleErr.covThresholdRange] else []
        | some _ => [RuleErr.covThresholdNotNumeric]
      else []
    let thrErrs :=
      if typeMatches "ThresholdRule" then
        match jget r "max_uncertainty" with
        | none => [RuleErr.thrMissing]
        | some (.jnum q) => if q < 0 then [RuleErr.thrNegative] else []
        | some _ => [RuleErr.thrNotNumeric]
      else []
    let compErrs :=
      if typeMatches "CompositeRule" then
        (match jget r "rules" with
         | none => [RuleErr.compMissingRules]
         | some _ => []) ++
        (match jget r "mode" with
         | none => []
         | some m =>
           if m.isStr "and" || m.isStr "or" then [] else [RuleErr.compBadMode])
      else []
    let levelErrs :=
      match jget r "level" with
      | none => []
      | some v => if isValidLevel v then [] else [RuleErr.badLevel]
    typeErrs ++ covErrs ++ thrErrs ++ compErrs ++ levelErrs
  | _ => [RuleErr.notDict]

theorem isStr_and_or_iff (mv : JValue) :
    (mv.isStr "and" || mv.isStr "or") = true ↔
      (mv = .jstr "and" ∨ mv = .jstr "or") := by
  cases mv <;> simp [JValue.isStr]

/-- C9 counterexample: the validator accepts only the modes "and" and
"or" (not "any"/"all"), and it never checks that the children list is
non-empty: mode "any" with non-empty children yields an error, while
mode "or" with an empty children list yields none. -/
theorem composite_rule_validation_claim_false :
    validateRule
        (.jdict [("type", .jstr "CompositeRule"), ("mode", .jstr "any"),
          ("rules", .jlist [.jdict [("type", .jstr "InvariantRule")]])]) 0 ≠
      [] ∧
    validateRule
        (.jdict [("type", .jstr "CompositeRule"), ("mode", .jstr "or"),
          ("rules", .jlist [])]) 0 = [] := by
  constructor
  · intro h
    rw [show validateRule
        (.jdict [("type", .jstr "CompositeRule"), ("mode", .jstr "any"),
          ("rules", .jlist [.jdict [("type", .jstr "InvariantRule")]])]) 0 =
        [RuleErr.compBadMode] from rfl] at h
    exact absurd h (by simp)
  · rfl

/-- C9 (amended): for a rule document typed CompositeRule, the
validator reports no error exactly when the "rules" key is present
(an empty children list is accepted), the mode, if present, is "and"
or "or", and the level, if present, is a valid level name. -/
theorem composite_rule_validation_spec (entries : List (String × JValue))
    (i : ℕ)
    (htype : jget (.jdict entries) "type" = some (.jstr "CompositeRule")) :
    validateRule (.jdict entries) i = [] ↔
      ((jget (.jdict entries) "rules").isSome ∧
        (∀ m, jget (.jdict entries) "mode" = some m →
          m = JValue.jstr "and" ∨ m = JValue.jstr "or") ∧
        (∀ v, jget (.jdict entries) "level" = some v →
          isValidLevel v = true)) := by
  rw [validateRule]
  simp only [htype]
  rcases hr : jget (.jdict entries) "rules" with _ | rv <;>
    rcases hm : jget (.jdict entries) "mode" with _ | mv <;>
      rcases hl : jget (.jdict entries) "level" with _ | lv <;>
        simp [hr, hm, hl, isValidRuleType, JValue.isStr, isStr_and_or_iff]
  · rcases mv with q | s | l | d <;> simp
    by_cases hs : s = "and" <;> simp [hs]
  · intro _
    rcases mv with q | s | l | d <;> simp
    by_cases hs : s = "and" <;> simp [hs]

/-- C9 witness: a CompositeRule with mode "and" and an empty children
list validates without error. -/
theorem composite_rule_validation_spec_witness :
    validateRule
        (.jdict [("type", .jstr "CompositeRule"), ("mode", .jstr "and"),
          ("rules", .jlist [])]) 3 = [] :=
  (composite_rule_validation_spec
      [("type", .jstr "CompositeRule"), ("mode", .jstr "and"),
        ("rules", .jlist [])] 3 rfl).mpr
    ⟨rfl, fun m hm => by injection hm with h; exact Or.inl h.symm,
      fun v hv => Option.noConfusion hv⟩

/-- C4 counterexample: the claim says an infinite u forces the default
pair, but catch of (5, +inf) with default (0, +inf) returns (5, +inf),
not the default (0, +inf); the source never tests isinf on u. -/
theorem catchOp_claim_false :
    ¬ catchOp (FP.fin 5) FP.inf (FP.fin 0) FP.inf = (FP.fin 0, FP.inf) := by
  decide

/-- C4 (amended): catch(n, u, default_n, default_u) returns (n, u)
exactly when n is finite (not NaN, not infinite), u is not NaN, and
u is not negative; u = +inf is passed through unchanged.  In every
other case it returns (default_n, default_u). -/
theorem catchOp_spec (n u dn du : FP) :
    catchOp n u dn du = if catchSpecValid n u then (n, u) else (dn, du) := by
  cases n <;> cases u <;>
    simp [catchOp, catchSpecValid, FP.isNaN, FP.isInf, FP.lt]
  case fin.fin q q' =>
    rcases lt_or_le q' 0 with h | h
    · simp [h, not_le.mpr h]
    · simp [h, not_lt.mpr h]

/-- C5: compose returns the mean with zero uncertainty when both
uncertainties are zero, the certain pair when exactly one is zero, and
the inverse-variance weighted pair otherwise; in every case the output
uncertainty is at most min(u1, u2) plus the 1e-10 slack. -/
theorem compose_spec (n1 u1 n2 u2 : ℝ) (h1 : 0 ≤ u1) (h2 : 0 ≤ u2) :
    (u1 = 0 → u2 = 0 → compose n1 u1 n2 u2 = ((n1 + n2) / 2, 0)) ∧
    (u1 = 0 → u2 ≠ 0 → compose n1 u1 n2 u2 = (n1, 0)) ∧
    (u2 = 0 → u1 ≠ 0 → compose n1 u1 n2 u2 = (n2, 0)) ∧
    (u1 ≠ 0 → u2 ≠ 0 → compose n1 u1 n2 u2 =
      ((n1 * u2 ^ 2 + n2 * u1 ^ 2) / (u1 ^ 2 + u2 ^ 2),
        Real.sqrt ((u1 ^ 2 * u2 ^ 2) / (u1 ^ 2 + u2 ^ 2)))) ∧
    (compose n1 u1 n2 u2).2 ≤ min u1 u2 + 1 / 10 ^ 10 := by
  refine ⟨?_, ?_, ?_, ?_, ?_⟩
  · intro ha hb; simp [compose, ha, hb]
  · intro ha hb; simp [compose, ha, hb]
  · intro ha hb; simp [compose, ha, hb]
  · intro ha hb; simp [compose, ha, hb]
  · rcases eq_or_lt_of_le h1 with h1z | h1p
    · rcases eq_or_lt_of_le h2 with h2z | h2p
      · simp [compose, h1z.symm, h2z.symm]
      · simp [compose, h1z.symm, ne_of_gt h2p]
        rw [min_eq_left h2]
        positivity
    · rcases eq_or_lt_of_le h2 with h2z | h2p
      · simp [compose, h2z.symm, ne_of_gt h1p]
        rw [min_eq_right h1]
        positivity
      · have hd : 0 < u1 ^ 2 + u2 ^ 2 := by positivity
        have key : ∀ a b : ℝ, 0 < a → 0 < b →
            Real.sqrt ((a ^ 2 * b ^ 2) / (a ^ 2 + b ^ 2)) ≤ b := by
          intro a b ha hb
          have hab : 0 < a ^ 2 + b ^ 2 := by positivity
          have hle : (a ^ 2 * b ^ 2) / (a ^ 2 + b ^ 2) ≤ b ^ 2 := by
            rw [div_le_iff₀ hab]
            nlinarith
          calc Real.sqrt ((a ^ 2 * b ^ 2) / (a ^ 2 + b ^ 2))
              ≤ Real.sqrt (b ^ 2) := Real.sqrt_le_sqrt hle
            _ = b := Real.sqrt_sq hb.le
        have hu2 : Real.sqrt ((u1 ^ 2 * u2 ^ 2) / (u1 ^ 2 + u2 ^ 2)) ≤ u2 :=
          key u1 u2 h1p h2p
        have hu1 : Real.sqrt ((u1 ^ 2 * u2 ^ 2) / (u1 ^ 2 + u2 ^ 2)) ≤ u1 := by
          have := key u2 u1 h2p h1p
          calc Real.sqrt ((u1 ^ 2 * u2 ^ 2) / (u1 ^ 2 + u2 ^ 2))
              = Real.sqrt ((u2 ^ 2 * u1 ^ 2) / (u2 ^ 2 + u1 ^ 2)) := by
                ring_nf
            _ ≤ u1 := this
        simp [compose, ne_of_gt h1p, ne_of_gt h2p]
        have : Real.sqrt ((u1 ^ 2 * u2 ^ 2) / (u1 ^ 2 + u2 ^ 2)) ≤ min u1 u2 :=
          le_min hu1 hu2
        linarith [this]

/-- C5 witness: compose at (1, 0, 2, 3) returns the certain pair (1, 0)
and its uncertainty respects the min bound. -/
theorem compose_spec_witness :
    compose 1 0 2 3 = (1, 0) ∧
    (compose 1 0 2 3).2 ≤ min (0 : ℝ) 3 + 1 / 10 ^ 10 := by
  have h := compose_spec 1 0 2 3 (le_refl 0) (by norm_num)
  exact ⟨h.2.1 rfl (by norm_num), h.2.2.2.2⟩

end EBios
